import Mathlib

/-!
Verification of the mcp-sync core against its specification.

Configurations are modelled as insertion-ordered association lists, the
logical model of Python dicts: a `Config V` maps server names to entries
of type `V`.  The sync engine (`direct_sync.py`), the Codex TOML adapter
(`toml_support.py`), the backup store (`backup.py`) and the fuzzy client
resolver (`fuzzy_match.py`) are embedded as pure functions below, each
following the corresponding Python function line by line.
-/

namespace McpSync

/-- A canonical config: an insertion-ordered mapping from server name to
entry, the logical model of a Python dict. -/
abbrev Config (V : Type) := List (String × V)

/-- The key list of a config, in insertion order (Python dict keys). -/
def keysOf {V : Type} (c : Config V) : List String := c.map Prod.fst

/-- Ascending sort of a list of names, the model of Python sorted. -/
def sortStr (l : List String) : List String :=
  List.insertionSort (fun a b : String => a ≤ b) l

/-! ## Diff sets of DirectSyncEngine._sync_paths (direct_sync.py lines 227-233) -/

/-- servers_to_add = set(source.keys()) - set(target.keys()). -/
def serversToAdd {V : Type} (source target : Config V) : List String :=
  (keysOf source).filter (fun n => decide (¬ n ∈ keysOf target))

/-- servers_to_update = set of names in source that are in target with a
different entry. -/
def serversToUpdate {V : Type} [DecidableEq V] (source target : Config V) : List String :=
  (keysOf source).filter
    (fun n => decide (n ∈ keysOf target ∧ source.lookup n ≠ target.lookup n))

/-- servers_to_remove = set(target.keys()) - set(source.keys()). -/
def serversToRemove {V : Type} (source target : Config V) : List String :=
  (keysOf target).filter (fun n => decide (¬ n ∈ keysOf source))

/-- The implicit set of unchanged names: in both configs with equal entries. -/
def serversUnchanged {V : Type} [DecidableEq V] (source target : Config V) : List String :=
  (keysOf source).filter
    (fun n => decide (n ∈ keysOf target ∧ source.lookup n = target.lookup n))

/-! ## The merge (direct_sync.py lines 256-257):
new_servers = dict(target_servers); new_servers.update(source_servers). -/

/-- dict(target) followed by .update(source): entries of target keep their
position, source values replace by name, keys only in source are appended. -/
def dictUpdate {V : Type} (target source : Config V) : Config V :=
  target.map (fun p =>
    match source.lookup p.1 with
    | some v => (p.1, v)
    | none => p)
  ++ source.filter (fun p => (target.lookup p.1).isNone)

/-! ## The sync result and effects of _sync_paths -/

/-- The result dict returned by _sync_paths (fields of the failure cases are
defaulted). -/
structure SyncResult where
  success : Bool
  error : Option String
  dry_run : Bool
  servers_to_add : List String
  servers_to_update : List String
  servers_to_remove : List String
  total_changes : Nat
  backup : Option String
deriving DecidableEq, Repr

/-- The filesystem effects of one _sync_paths call: whether a backup of the
target was requested and which merged config, if any, was passed to the
adapter write. -/
structure SyncEffects (V : Type) where
  backupAttempted : Bool
  written : Option (Config V)
deriving DecidableEq, Repr

/-- DirectSyncEngine._sync_paths (direct_sync.py lines 194-282) after both
configs have been read.  `targetExists` models target_path.exists(),
`backupResult` the value of backup_before_sync, and `writeOk` the boolean
returned by the adapter write. -/
def syncPaths {V : Type} [DecidableEq V] (sourcePath targetPath : String)
    (sourceServers targetServers : Config V)
    (dryRun targetExists : Bool) (backupResult : Option String) (writeOk : Bool) :
    SyncResult × SyncEffects V :=
  if sourceServers.isEmpty then
    ({ success := false
       error := some ("No MCP servers found in source: " ++ sourcePath)
       dry_run := false
       servers_to_add := []
       servers_to_update := []
       servers_to_remove := []
       total_changes := 0
       backup := none },
     { backupAttempted := false, written := none })
  else
    let toAdd := serversToAdd sourceServers targetServers
    let toUpdate := serversToUpdate sourceServers targetServers
    let toRemove := serversToRemove sourceServers targetServers
    let total := toAdd.length + toUpdate.length + toRemove.length
    if dryRun then
      ({ success := true
         error := none
         dry_run := true
         servers_to_add := sortStr toAdd
         servers_to_update := sortStr toUpdate
         servers_to_remove := sortStr toRemove
         total_changes := total
         backup := none },
       { backupAttempted := false, written := none })
    else
      let backupPath : Option String := if targetExists then backupResult else none
      let merged := dictUpdate targetServers sourceServers
      if writeOk then
        ({ success := true
           error := none
           dry_run := false
           servers_to_add := sortStr toAdd
           servers_to_update := sortStr toUpdate
           servers_to_remove := sortStr toRemove
           total_changes := total
           backup := backupPath },
         { backupAttempted := targetExists, written := some merged })
      else
        ({ success := false
           error := some ("Failed to write target configuration: " ++ targetPath)
           dry_run := false
           servers_to_add := []
           servers_to_update := []
           servers_to_remove := []
           total_changes := 0
           backup := none },
         { backupAttempted := targetExists, written := some merged })

/-! ## Format inference (direct_sync.py lines 137-140 and 207-210) -/

/-- Format inferred from a path suffix when no format is supplied. -/
def inferFormat (suffix : String) : String :=
  if suffix = ".toml" then "toml" else "json"

/-- Format resolution of sync_by_path: an explicit format is used as given,
otherwise the format is inferred from the path suffix. -/
def resolveFormat (explicitFormat : Option String) (suffix : String) : String :=
  match explicitFormat with
  | some f => f
  | none => inferFormat suffix

/-! ## The Codex TOML adapter (toml_support.py) -/

/-- A canonical server entry as produced by CodexConfig._parse_codex_server:
command, args and env are always present, timeout_ms and the inferred type
tag only sometimes (absent dict keys are modelled by none). -/
structure CanonicalServer where
  command : String
  args : List String
  env : List (String × String)
  timeout_ms : Option Int
  type : Option String
deriving DecidableEq, Repr

/-- A server table as it appears under mcp_servers in a Codex TOML file:
command, args, env and an optional startup_timeout_ms key. -/
structure RawServer where
  command : String
  args : List String
  env : List (String × String)
  startup_timeout_ms : Option Int
deriving DecidableEq, Repr

/-- Python str.lower() on ASCII text, character by character. -/
def pyLower (s : String) : String := String.mk (s.data.map Char.toLower)

/-- Python str.strip(): remove leading and trailing whitespace. -/
def pyStrip (s : String) : String :=
  String.mk (((s.data.dropWhile Char.isWhitespace).reverse.dropWhile
    Char.isWhitespace).reverse)

/-- The Windows bootstrap variables stripped on read
(toml_support.py line 143). -/
def winSystemVars : List String := ["SystemRoot", "PROGRAMFILES", "SystemDrive"]

/-- CodexConfig._parse_codex_server (toml_support.py lines 103-155). -/
def parseCodexServer (s : RawServer) : CanonicalServer :=
  let command := s.command
  let args := s.args
  let cmdArgs : String × List String :=
    if command ≠ "" ∧ (pyLower command = "cmd" ∨ pyLower command = "cmd.exe") then
      if 2 ≤ args.length then
        let firstArg := pyLower (args.headD "")
        if firstArg = "/c" ∨ firstArg = "/k" then
          (args.getD 1 "", args.drop 2)
        else
          (args.headD "", args.drop 1)
      else
        ("", args)
    else
      (command, args)
  { command := cmdArgs.1
    args := cmdArgs.2
    env := s.env.filter (fun p => decide (¬ p.1 ∈ winSystemVars))
    timeout_ms := s.startup_timeout_ms
    type := if "--stdio" ∈ cmdArgs.2 then some "stdio" else none }

/-- env.get(key, default) on an association-list environment. -/
def envGetD (env : List (String × String)) (k d : String) : String :=
  (env.lookup k).getD d

/-- CodexConfig._format_codex_server (toml_support.py lines 157-210);
isWindows models platform.system().lower() == "windows". -/
def formatCodexServer (isWindows : Bool) (s : CanonicalServer) : RawServer :=
  let command := s.command
  let args := s.args
  let env := s.env
  let effTimeout : Int :=
    match s.timeout_ms with
    | some t => if t = 0 then 60000 else t
    | none => 60000
  if isWindows then
    let codexArgs :=
      ["/c", command] ++
        (if command = "npx" ∧ ¬ "-y" ∈ args then ["-y"] else []) ++ args
    let windowsEnv :=
      [("SystemRoot", envGetD env "SystemRoot" "C:\\Windows"),
       ("PROGRAMFILES", envGetD env "PROGRAMFILES" "C:\\Program Files")]
    { command := "cmd"
      args := codexArgs
      env := windowsEnv ++
        env.filter (fun p => decide (¬ (p.1 = "SystemRoot" ∨ p.1 = "PROGRAMFILES")))
      startup_timeout_ms := some effTimeout }
  else
    { command := command
      args := if command = "npx" ∧ ¬ "-y" ∈ args then "-y" :: args else args
      env := env
      startup_timeout_ms := some effTimeout }

/-- The mcp_servers table CodexConfig.write_config produces for a canonical
config (each entry formatted; entries not in the new config are deleted, so
the final table is exactly the formatted new entries). -/
def writeServers (isWindows : Bool) (cfg : Config CanonicalServer) : Config RawServer :=
  cfg.map (fun p => (p.1, formatCodexServer isWindows p.2))

/-- The canonical config CodexConfig.read_config recovers from an
mcp_servers table (each entry parsed). -/
def readServers (cfg : Config RawServer) : Config CanonicalServer :=
  cfg.map (fun p => (p.1, parseCodexServer p.2))

/-- The recognized canonical fields of an entry: command, args, env and
timeout (the inferred type tag is not one of them). -/
structure RecognizedFields where
  command : String
  args : List String
  env : List (String × String)
  timeout_ms : Option Int
deriving DecidableEq, Repr

/-- Projection of an entry to its recognized fields. -/
def recognizedFields (s : CanonicalServer) : RecognizedFields :=
  { command := s.command, args := s.args, env := s.env, timeout_ms := s.timeout_ms }

/-- The hypotheses under which the Codex adapter round-trips an entry
exactly: the command is not the Windows launcher, the npx confirm flag is
already present when the command is npx, the env carries none of the
bootstrap variables, and an explicit nonzero timeout is set. -/
def roundTripSafe (s : CanonicalServer) : Prop :=
  (pyLower s.command ≠ "cmd" ∧ pyLower s.command ≠ "cmd.exe")
  ∧ (s.command = "npx" → "-y" ∈ s.args)
  ∧ (∀ k, k ∈ winSystemVars → s.env.lookup k = none)
  ∧ (∃ t, s.timeout_ms = some t ∧ t ≠ 0)

instance (s : CanonicalServer) : Decidable (roundTripSafe s) := by
  unfold roundTripSafe
  have : Decidable (∃ t, s.timeout_ms = some t ∧ t ≠ 0) := by
    cases h : s.timeout_ms with
    | none => exact isFalse (by simp)
    | some t => exact decidable_of_iff (t ≠ 0) (by simp)
  exact inferInstance

/-- A concrete entry satisfying the round-trip hypotheses, for the witness. -/
def sampleSafeServer : CanonicalServer :=
  { command := "python", args := ["x"], env := [("K", "V")], timeout_ms := some 5,
    type := none }
/-! ## The fuzzy client matcher (fuzzy_match.py) -/

/-- FuzzyClientMatcher.DEFAULT_KEYWORDS (fuzzy_match.py lines 20-32): the
keyword index the matcher builds when no client definitions are supplied. -/
def defaultKeywords : List (String × List String) :=
  [("codex", ["codex", "openai", "codex cli"]),
   ("claude-code", ["claude", "claude-code", "claude code", "anthropic"]),
   ("claude-desktop", ["claude-desktop", "claude desktop", "anthropic desktop"]),
   ("cursor", ["cursor", "cursor ide"]),
   ("gemini-cli", ["gemini", "gemini cli", "google", "gcloud"]),
   ("copilot-cli", ["copilot", "copilot cli", "github", "gh"]),
   ("vscode-user", ["vscode", "vs code", "vs-code", "code", "visual studio code"]),
   ("cline", ["cline"]),
   ("roo", ["roo", "roo-cline"]),
   ("kilocode-cli", ["kilocode", "kilo", "kilocode cli"]),
   ("continue", ["continue"])]

/-- The flattened (keyword, client id) list of find_client (lines 90-93). -/
def allKeywords (kw : List (String × List String)) : List (String × String) :=
  kw.flatMap (fun p => p.2.map (fun k => (k, p.1)))

/-- query.lower().strip() as performed by find_client. -/
def normalizeQuery (q : String) : String := pyStrip (pyLower q)

/-- process.extract(query, keyword_list, scorer, limit): the limit
best-scoring keywords paired with their scores. -/
def extractTop (scorer : String → String → Nat) (q : String) (ks : List String)
    (limit : Nat) : List (String × Nat) :=
  (List.insertionSort (fun a b : String × Nat => b.2 ≤ a.2)
    (ks.map (fun k => (k, scorer q k)))).take limit

/-- The best-match loop of find_client (fuzzy_match.py lines 107-126): keep
the first client whose keyword strictly improves the best score at or above
the threshold. -/
def bestLoop (threshold : Nat) (allKw : List (String × String)) :
    List (String × Nat) → Option String × Nat → Option String × Nat
  | [], best => best
  | m :: rest, best =>
    if threshold ≤ m.2 ∧ best.2 < m.2 then
      match allKw.find? (fun p => p.1 == m.1) with
      | some p => bestLoop threshold allKw rest (some p.2, m.2)
      | none => bestLoop threshold allKw rest best
    else
      bestLoop threshold allKw rest best

/-- FuzzyClientMatcher.find_client (fuzzy_match.py lines 70-126), with the
external WRatio scorer of thefuzz abstracted as a parameter. -/
def findClient (scorer : String → String → Nat) (kw : List (String × List String))
    (query : String) (threshold : Nat) : Option String × Nat :=
  if query = "" then (none, 0)
  else
    let q := normalizeQuery query
    if (kw.lookup q).isSome then (some q, 100)
    else
      match (allKeywords kw).find? (fun p => q == pyLower p.1) with
      | some p => (some p.2, 100)
      | none =>
        bestLoop threshold (allKeywords kw)
          (extractTop scorer q ((allKeywords kw).map Prod.fst) 5) (none, 0)

/-! ## The backup store (backup.py) -/

/-- A backup snapshot directory: its timestamp identifier and the relative
paths of the files it contains. -/
abbrev Snapshot := String × List String

/-- BackupManager.list_backups (backup.py lines 82-118): snapshot
directories sorted newest first by identifier, omitting empty ones. -/
def listBackups (snaps : List Snapshot) : List Snapshot :=
  (List.insertionSort (fun a b : Snapshot => b.1 ≤ a.1) snaps).filter
    (fun s => decide (s.2 ≠ []))

/-- BackupManager.cleanup_old_backups (backup.py lines 179-202): remove
every listed snapshot beyond the keep_count most recent, returning how many
were removed together with the surviving snapshot directories. -/
def cleanupOldBackups (snaps : List Snapshot) (keepCount : Nat) :
    Nat × List Snapshot :=
  let backups := listBackups snaps
  if backups.length ≤ keepCount then (0, snaps)
  else
    let removedIds := (backups.drop keepCount).map Prod.fst
    ((backups.drop keepCount).length,
      snaps.filter (fun s => decide (¬ s.1 ∈ removedIds)))

instance : IsTotal Snapshot (fun a b : Snapshot => b.1 ≤ a.1) :=
  ⟨fun a b => le_total b.1 a.1⟩

instance : IsTrans Snapshot (fun a b : Snapshot => b.1 ≤ a.1) :=
  ⟨fun _ _ _ hab hbc => le_trans hbc hab⟩

instance : IsAntisymm Snapshot (fun a b : Snapshot => b.1 < a.1) :=
  ⟨fun _ b h1 h2 => absurd (lt_trans h1 h2) (lt_irrefl b.1)⟩

/-! ## Basic lookup lemmas -/

theorem lookup_cons_self {V : Type} (k : String) (v : V) (t : Config V) :
    ((k, v) :: t).lookup k = some v := by
  simp [List.lookup]

theorem lookup_cons_ne {V : Type} (k n : String) (v : V) (t : Config V) (h : n ≠ k) :
    ((k, v) :: t).lookup n = t.lookup n := by
  simp [List.lookup, beq_eq_false_iff_ne.mpr h]

theorem lookup_isSome_iff {V : Type} (l : Config V) (n : String) :
    (l.lookup n).isSome ↔ n ∈ keysOf l := by
  induction l with
  | nil => simp [keysOf, List.lookup]
  | cons p t ih =>
    rcases p with ⟨k, v⟩
    by_cases h : n = k
    · subst h
      simp [keysOf, lookup_cons_self]
    · rw [lookup_cons_ne k n v t h]
      simp only [keysOf, List.map_cons, List.mem_cons] at ih ⊢
      rw [ih]
      constructor
      · exact Or.inr
      · rintro (h1 | h2)
        · exact absurd h1 h
        · exact h2

theorem lookup_eq_none_iff {V : Type} (l : Config V) (n : String) :
    l.lookup n = none ↔ ¬ n ∈ keysOf l := by
  rw [← lookup_isSome_iff]
  cases l.lookup n <;> simp

theorem lookup_append {V : Type} (l₁ l₂ : Config V) (n : String) :
    (l₁ ++ l₂).lookup n =
      match l₁.lookup n with
      | some v => some v
      | none => l₂.lookup n := by
  induction l₁ with
  | nil => simp [List.lookup]
  | cons p t ih =>
    rcases p with ⟨k, v⟩
    by_cases h : n = k
    · subst h
      simp [List.cons_append, lookup_cons_self]
    · rw [List.cons_append, lookup_cons_ne _ _ _ _ h, lookup_cons_ne _ _ _ _ h, ih]

theorem lookup_map_overlay {V : Type} (target source : Config V) (n : String) :
    (target.map (fun p =>
      match source.lookup p.1 with
      | some v => (p.1, v)
      | none => p)).lookup n =
      match target.lookup n with
      | some v => some ((source.lookup n).getD v)
      | none => none := by
  induction target with
  | nil => simp [List.lookup]
  | cons p t ih =>
    rcases p with ⟨k, v⟩
    by_cases h : n = k
    · subst h
      cases hs : source.lookup n with
      | some w => simp [List.map_cons, hs, lookup_cons_self]
      | none => simp [List.map_cons, hs, lookup_cons_self]
    · cases hs : source.lookup k with
      | some w =>
        simp only [List.map_cons, hs]
        rw [lookup_cons_ne _ _ _ _ h, lookup_cons_ne _ _ _ _ h, ih]
      | none =>
        simp only [List.map_cons, hs]
        rw [lookup_cons_ne _ _ _ _ h, lookup_cons_ne _ _ _ _ h, ih]

theorem lookup_filter_keep {V : Type} (l : Config V) (p : String × V → Bool) (n : String)
    (h : ∀ v, p (n, v) = true) :
    (l.filter p).lookup n = l.lookup n := by
  induction l with
  | nil => simp
  | cons q t ih =>
    rcases q with ⟨k, v⟩
    by_cases hk : n = k
    · subst hk
      rw [List.filter_cons_of_pos (h v), lookup_cons_self, lookup_cons_self]
    · cases hp : p (k, v) with
      | true =>
        rw [List.filter_cons_of_pos hp, lookup_cons_ne _ _ _ _ hk,
          lookup_cons_ne _ _ _ _ hk, ih]
      | false =>
        rw [List.filter_cons_of_neg (by simp [hp]), lookup_cons_ne _ _ _ _ hk, ih]

theorem lookup_filter_none {V : Type} (l : Config V) (p : String × V → Bool) (n : String)
    (h : l.lookup n = none) : (l.filter p).lookup n = none := by
  rw [lookup_eq_none_iff] at h ⊢
  intro hmem
  exact h (by
    rcases List.mem_map.mp hmem with ⟨q, hq, hfst⟩
    exact List.mem_map.mpr ⟨q, (List.filter_sublist l).subset hq, hfst⟩)

/-- The overlay semantics of the merge: a name present in source maps to
source's entry, any other name to target's entry (or nothing). -/
theorem lookup_dictUpdate {V : Type} (target source : Config V) (n : String) :
    (dictUpdate target source).lookup n =
      match source.lookup n with
      | some v => some v
      | none => target.lookup n := by
  rw [dictUpdate, lookup_append, lookup_map_overlay]
  cases ht : target.lookup n with
  | some v =>
    cases hs : source.lookup n with
    | some w => simp [hs]
    | none => simp [hs]
  | none =>
    cases hs : source.lookup n with
    | some w =>
      have hkeep : ∀ v : V, ((fun p : String × V => (target.lookup p.1).isNone) (n, v)) = true := by
        intro v
        simp [ht]
      simp only
      rw [lookup_filter_keep source (fun p : String × V => (target.lookup p.1).isNone) n hkeep,
        hs]
    | none =>
      simp only
      rw [lookup_filter_none source (fun p : String × V => (target.lookup p.1).isNone) n hs]

/-! ## Membership characterizations of the diff sets -/

theorem mem_serversToAdd {V : Type} {source target : Config V} {n : String} :
    n ∈ serversToAdd source target ↔ n ∈ keysOf source ∧ ¬ n ∈ keysOf target := by
  simp [serversToAdd, List.mem_filter]

theorem mem_serversToUpdate {V : Type} [DecidableEq V] {source target : Config V} {n : String} :
    n ∈ serversToUpdate source target ↔
      n ∈ keysOf source ∧ n ∈ keysOf target ∧ source.lookup n ≠ target.lookup n := by
  simp [serversToUpdate, List.mem_filter]

theorem mem_serversToRemove {V : Type} {source target : Config V} {n : String} :
    n ∈ serversToRemove source target ↔ n ∈ keysOf target ∧ ¬ n ∈ keysOf source := by
  simp [serversToRemove, List.mem_filter]

theorem mem_serversUnchanged {V : Type} [DecidableEq V] {source target : Config V} {n : String} :
    n ∈ serversUnchanged source target ↔
      n ∈ keysOf source ∧ n ∈ keysOf target ∧ source.lookup n = target.lookup n := by
  simp [serversUnchanged, List.mem_filter]

theorem mem_sortStr {l : List String} {n : String} : n ∈ sortStr l ↔ n ∈ l :=
  (List.perm_insertionSort _ l).mem_iff

/-! ## Claim theorems for the sync engine -/

/-- C1: the merged config that apply writes is the overlay of source over
target: every name of the source maps to the source's entry, every name only
in the target keeps the target's unchanged entry, no other name occurs, and
names of the reported toRemove set are retained in the merge; the non-dry-run
path of _sync_paths passes exactly this overlay to the adapter write. -/
theorem apply_merge_is_overlay {V : Type} [DecidableEq V] (sourcePath targetPath : String)
    (source target : Config V) (targetExists : Bool) (backupResult : Option String)
    (writeOk : Bool) (hs : source ≠ []) :
    (∀ n, n ∈ keysOf source → (dictUpdate target source).lookup n = source.lookup n)
    ∧ (∀ n, ¬ n ∈ keysOf source → (dictUpdate target source).lookup n = target.lookup n)
    ∧ (∀ n, n ∈ keysOf (dictUpdate target source) → n ∈ keysOf source ∨ n ∈ keysOf target)
    ∧ (∀ n, n ∈ serversToRemove source target →
        n ∈ keysOf (dictUpdate target source) ∧
          (dictUpdate target source).lookup n = target.lookup n)
    ∧ (syncPaths sourcePath targetPath source target false targetExists backupResult
        writeOk).2.written = some (dictUpdate target source) := by
  have hover : ∀ n, (dictUpdate target source).lookup n =
      match source.lookup n with
      | some v => some v
      | none => target.lookup n := lookup_dictUpdate target source
  have h1 : ∀ n, n ∈ keysOf source →
      (dictUpdate target source).lookup n = source.lookup n := by
    intro n hn
    rcases Option.isSome_iff_exists.mp ((lookup_isSome_iff source n).mpr hn) with ⟨v, hv⟩
    rw [hover n, hv]
  have h2 : ∀ n, ¬ n ∈ keysOf source →
      (dictUpdate target source).lookup n = target.lookup n := by
    intro n hn
    rw [hover n, (lookup_eq_none_iff source n).mpr hn]
  refine ⟨h1, h2, ?_, ?_, ?_⟩
  · intro n hn
    have := (lookup_isSome_iff (dictUpdate target source) n).mpr hn
    rw [hover n] at this
    cases hsn : source.lookup n with
    | some v =>
      exact Or.inl ((lookup_isSome_iff source n).mp (by rw [hsn]; rfl))
    | none =>
      rw [hsn] at this
      exact Or.inr ((lookup_isSome_iff target n).mp this)
  · intro n hn
    rcases mem_serversToRemove.mp hn with ⟨hnt, hns⟩
    refine ⟨?_, h2 n hns⟩
    rw [← lookup_isSome_iff, h2 n hns, lookup_isSome_iff]
    exact hnt
  · rw [syncPaths]
    have : source.isEmpty = false := by
      cases source with
      | nil => exact absurd rfl hs
      | cons a t => rfl
    rw [if_neg (by simp [this])]
    simp only [Bool.false_eq_true, if_false]
    cases writeOk <;> simp

/-- Witness for C1 at a concrete source and target. -/
theorem apply_merge_is_overlay_witness :
    (∀ n, n ∈ keysOf [("a", 1), ("b", 2)] →
        (dictUpdate [("b", 9), ("c", 7)] [("a", 1), ("b", 2)]).lookup n =
          ([("a", 1), ("b", 2)] : Config Nat).lookup n)
    ∧ (∀ n, ¬ n ∈ keysOf [("a", 1), ("b", 2)] →
        (dictUpdate [("b", 9), ("c", 7)] [("a", 1), ("b", 2)]).lookup n =
          ([("b", 9), ("c", 7)] : Config Nat).lookup n)
    ∧ (∀ n, n ∈ keysOf (dictUpdate [("b", 9), ("c", 7)] [("a", 1), ("b", 2)]) →
        n ∈ keysOf ([("a", 1), ("b", 2)] : Config Nat) ∨
          n ∈ keysOf ([("b", 9), ("c", 7)] : Config Nat))
    ∧ (∀ n, n ∈ serversToRemove [("a", 1), ("b", 2)] [("b", 9), ("c", 7)] →
        n ∈ keysOf (dictUpdate [("b", 9), ("c", 7)] [("a", 1), ("b", 2)]) ∧
          (dictUpdate [("b", 9), ("c", 7)] [("a", 1), ("b", 2)]).lookup n =
            ([("b", 9), ("c", 7)] : Config Nat).lookup n)
    ∧ (syncPaths "src.json" "tgt.json" [("a", 1), ("b", 2)] [("b", 9), ("c", 7)]
        false true (some "bak") true).2.written =
        some (dictUpdate [("b", 9), ("c", 7)] [("a", 1), ("b", 2)]) :=
  apply_merge_is_overlay "src.json" "tgt.json" [("a", 1), ("b", 2)] [("b", 9), ("c", 7)]
    true (some "bak") true (by decide)

/-- C3: the computed toAdd, toUpdate, toRemove sets and the implicit
unchanged set are pairwise disjoint and together cover exactly
names(source) ∪ names(target). -/
theorem diff_sets_partition {V : Type} [DecidableEq V] (A B : Config V) :
    ((∀ n, ¬ (n ∈ serversToAdd A B ∧ n ∈ serversToUpdate A B))
      ∧ (∀ n, ¬ (n ∈ serversToAdd A B ∧ n ∈ serversToRemove A B))
      ∧ (∀ n, ¬ (n ∈ serversToAdd A B ∧ n ∈ serversUnchanged A B))
      ∧ (∀ n, ¬ (n ∈ serversToUpdate A B ∧ n ∈ serversToRemove A B))
      ∧ (∀ n, ¬ (n ∈ serversToUpdate A B ∧ n ∈ serversUnchanged A B))
      ∧ (∀ n, ¬ (n ∈ serversToRemove A B ∧ n ∈ serversUnchanged A B)))
    ∧ (∀ n, (n ∈ keysOf A ∨ n ∈ keysOf B) ↔
        (n ∈ serversToAdd A B ∨ n ∈ serversToUpdate A B ∨
          n ∈ serversToRemove A B ∨ n ∈ serversUnchanged A B)) := by
  constructor
  · refine ⟨?_, ?_, ?_, ?_, ?_, ?_⟩ <;> intro n <;>
      simp only [mem_serversToAdd, mem_serversToUpdate, mem_serversToRemove,
        mem_serversUnchanged] <;> tauto
  · intro n
    simp only [mem_serversToAdd, mem_serversToUpdate, mem_serversToRemove,
      mem_serversUnchanged]
    by_cases hA : n ∈ keysOf A <;> by_cases hB : n ∈ keysOf B <;>
      by_cases he : A.lookup n = B.lookup n <;> tauto

/-- C4: with an empty source config, _sync_paths fails with the
"No MCP servers found in source" error and neither writes nor backs up the
target, for every dry-run flag, target state and adapter outcome. -/
theorem syncPaths_empty_source {V : Type} [DecidableEq V] (sourcePath targetPath : String)
    (targetServers : Config V) (dryRun targetExists : Bool)
    (backupResult : Option String) (writeOk : Bool) :
    syncPaths sourcePath targetPath ([] : Config V) targetServers dryRun targetExists
        backupResult writeOk =
      ({ success := false
         error := some ("No MCP servers found in source: " ++ sourcePath)
         dry_run := false
         servers_to_add := []
         servers_to_update := []
         servers_to_remove := []
         total_changes := 0
         backup := none },
       { backupAttempted := false, written := none }) := by
  rfl

/-- C6: a dry-run invocation never attempts a backup and never invokes the
adapter write, and (when the source is non-empty) returns a successful
dry-run result carrying exactly the computed plan and its total count. -/
theorem syncPaths_dry_run {V : Type} [DecidableEq V] (sourcePath targetPath : String)
    (source target : Config V) (targetExists : Bool) (backupResult : Option String)
    (writeOk : Bool) :
    ((syncPaths sourcePath targetPath source target true targetExists backupResult
        writeOk).2 = { backupAttempted := false, written := none })
    ∧ (source ≠ [] →
        (syncPaths sourcePath targetPath source target true targetExists backupResult
          writeOk).1 =
        { success := true
          error := none
          dry_run := true
          servers_to_add := sortStr (serversToAdd source target)
          servers_to_update := sortStr (serversToUpdate source target)
          servers_to_remove := sortStr (serversToRemove source target)
          total_changes := (serversToAdd source target).length +
            (serversToUpdate source target).length + (serversToRemove source target).length
          backup := none })
    ∧ (∀ n, n ∈ sortStr (serversToAdd source target) ↔
        n ∈ keysOf source ∧ ¬ n ∈ keysOf target)
    ∧ (∀ n, n ∈ sortStr (serversToUpdate source target) ↔
        n ∈ keysOf source ∧ n ∈ keysOf target ∧ source.lookup n ≠ target.lookup n)
    ∧ (∀ n, n ∈ sortStr (serversToRemove source target) ↔
        n ∈ keysOf target ∧ ¬ n ∈ keysOf source) := by
  refine ⟨?_, ?_, ?_, ?_, ?_⟩
  · by_cases h : source.isEmpty <;> simp [syncPaths, h]
  · intro hs
    have : source.isEmpty = false := by
      cases source with
      | nil => exact absurd rfl hs
      | cons a t => rfl
    simp [syncPaths, this]
  · intro n
    rw [mem_sortStr, mem_serversToAdd]
  · intro n
    rw [mem_sortStr, mem_serversToUpdate]
  · intro n
    rw [mem_sortStr, mem_serversToRemove]

theorem env_filter_keep_of_no_sysvars (env : List (String × String))
    (h : ∀ k, k ∈ winSystemVars → env.lookup k = none) :
    ∀ p, p ∈ env → ¬ p.1 ∈ winSystemVars := by
  intro p hp hin
  have hnone := h p.1 hin
  rw [lookup_eq_none_iff] at hnone
  exact hnone (List.mem_map.mpr ⟨p, hp, rfl⟩)

theorem env_filter_eq_self (env : List (String × String))
    (h : ∀ k, k ∈ winSystemVars → env.lookup k = none) :
    env.filter (fun p => decide (¬ p.1 ∈ winSystemVars)) = env := by
  apply List.filter_eq_self.mpr
  intro p hp
  simpa using env_filter_keep_of_no_sysvars env h p hp

theorem formatCodexServer_congr (w : Bool) {a b : CanonicalServer}
    (h : recognizedFields a = recognizedFields b) :
    formatCodexServer w a = formatCodexServer w b := by
  rcases a with ⟨c1, a1, e1, t1, ty1⟩
  rcases b with ⟨c2, a2, e2, t2, ty2⟩
  simp only [recognizedFields, RecognizedFields.mk.injEq] at h
  obtain ⟨h1, h2, h3, h4⟩ := h
  subst h1
  subst h2
  subst h3
  subst h4
  rfl

/-- Under the round-trip hypotheses, parsing the formatted entry recovers
every recognized canonical field exactly. -/
theorem parse_format_of_safe (w : Bool) (s : CanonicalServer) (h : roundTripSafe s) :
    recognizedFields (parseCodexServer (formatCodexServer w s)) = recognizedFields s := by
  obtain ⟨⟨hc1, hc2⟩, hnpx, henv, t, ht, ht0⟩ := h
  have hargs : (if s.command = "npx" ∧ ¬ "-y" ∈ s.args then "-y" :: s.args else s.args)
      = s.args := by
    by_cases hc : s.command = "npx"
    · rw [if_neg]
      rintro ⟨-, hy⟩
      exact hy (hnpx hc)
    · rw [if_neg]
      rintro ⟨hc2, -⟩
      exact hc hc2
  have hpad : (if s.command = "npx" ∧ ¬ "-y" ∈ s.args then ["-y"] else ([] : List String))
      = [] := by
    by_cases hc : s.command = "npx"
    · rw [if_neg]
      rintro ⟨-, hy⟩
      exact hy (hnpx hc)
    · rw [if_neg]
      rintro ⟨hc2, -⟩
      exact hc hc2
  have htime : (match s.timeout_ms with
      | some t => if t = 0 then (60000 : Int) else t
      | none => 60000) = t := by
    rw [ht]
    simp [ht0]
  have henv2 : ∀ p, p ∈ s.env → ¬ p.1 ∈ winSystemVars :=
    env_filter_keep_of_no_sysvars s.env henv
  cases w with
  | false =>
    simp only [formatCodexServer, Bool.false_eq_true, if_false, hargs, htime]
    have hlauncher : ¬ (s.command ≠ "" ∧
        (pyLower s.command = "cmd" ∨ pyLower s.command = "cmd.exe")) := by
      rintro ⟨-, h | h⟩
      · exact hc1 h
      · exact hc2 h
    simp only [parseCodexServer, if_neg hlauncher, recognizedFields,
      env_filter_eq_self s.env henv, ht]
  | true =>
    simp only [formatCodexServer, if_true, hpad, htime, List.nil_append, List.cons_append,
      List.append_nil]
    have hcondition : ("cmd" : String) ≠ "" ∧
        (pyLower "cmd" = "cmd" ∨ pyLower "cmd" = "cmd.exe") := by
      refine ⟨by decide, Or.inl (by decide)⟩
    simp only [parseCodexServer, if_pos hcondition]
    have hlen : 2 ≤ ("/c" :: s.command :: s.args).length := by
      simp [List.length_cons]
    rw [if_pos hlen]
    have hfirst : pyLower (("/c" :: s.command :: s.args).headD "") = "/c" := rfl
    rw [hfirst, if_pos (Or.inl rfl)]
    simp only [List.getD, List.get?_cons_succ, List.get?_cons_zero, List.getElem?_cons_succ,
      List.getElem?_cons_zero, Option.getD_some, List.drop, recognizedFields]
    have hdropped : (("SystemRoot", envGetD s.env "SystemRoot" "C:\\Windows") ::
        ("PROGRAMFILES", envGetD s.env "PROGRAMFILES" "C:\\Program Files") ::
        s.env.filter (fun p => decide (¬ (p.1 = "SystemRoot" ∨ p.1 = "PROGRAMFILES")))).filter
          (fun p => decide (¬ p.1 ∈ winSystemVars)) = s.env := by
      rw [List.filter_cons_of_neg (by simp [winSystemVars]),
        List.filter_cons_of_neg (by simp [winSystemVars])]
      have hinner : s.env.filter
          (fun p => decide (¬ (p.1 = "SystemRoot" ∨ p.1 = "PROGRAMFILES"))) = s.env := by
        apply List.filter_eq_self.mpr
        intro p hp
        have := henv2 p hp
        simp only [winSystemVars, List.mem_cons, List.mem_singleton] at this
        simp only [decide_eq_true_iff]
        tauto
      rw [hinner]
      exact env_filter_eq_self s.env henv
    rw [hdropped, ht]

/-- Under the round-trip hypotheses, a second write of the read-back entry
reproduces the first write exactly (in particular no second confirm flag). -/
theorem format_parse_format_of_safe (w : Bool) (s : CanonicalServer) (h : roundTripSafe s) :
    formatCodexServer w (parseCodexServer (formatCodexServer w s)) = formatCodexServer w s :=
  formatCodexServer_congr w (parse_format_of_safe w s h)

/-- C2 counterexample: for the canonical config mapping "a" to command
"npx" with no args, no env and no timeout, reading back the non-Windows
write does not reproduce the recognized fields (the confirm flag "-y" has
been injected into args and the default timeout 60000 materialized). -/
theorem codex_roundtrip_counterexample :
    (readServers (writeServers false
        [("a", { command := "npx", args := [], env := [], timeout_ms := none,
                 type := none })])).map (fun p => (p.1, recognizedFields p.2)) ≠
      [("a", recognizedFields
        { command := "npx", args := [], env := [], timeout_ms := none, type := none })] := by
  decide

/-- C2 amended: for a canonical config each of whose entries has a
non-launcher command, carries "-y" already when the command is npx, has
none of the Windows bootstrap env variables and an explicit nonzero
timeout, reading back the written config reproduces every recognized field
(command, args, env, timeout), and writing the read-back config again
yields output identical to the first write, so the confirm flag is never
prepended twice. -/
theorem codex_roundtrip_amended (w : Bool) (cfg : Config CanonicalServer)
    (h : ∀ p, p ∈ cfg → roundTripSafe p.2) :
    (readServers (writeServers w cfg)).map (fun p => (p.1, recognizedFields p.2)) =
      cfg.map (fun p => (p.1, recognizedFields p.2))
    ∧ writeServers w (readServers (writeServers w cfg)) = writeServers w cfg := by
  constructor
  · rw [readServers, writeServers, List.map_map, List.map_map]
    apply List.map_congr_left
    intro p hp
    simp only [Function.comp]
    rw [parse_format_of_safe w p.2 (h p hp)]
  · rw [readServers, writeServers, List.map_map, writeServers, List.map_map]
    apply List.map_congr_left
    intro p hp
    simp only [Function.comp]
    rw [format_parse_format_of_safe w p.2 (h p hp)]

/-- Witness for the amended C2 round trip at a concrete one-entry config on
the Windows platform. -/
theorem codex_roundtrip_amended_witness :
    (∀ p, p ∈ [("a", sampleSafeServer)] → roundTripSafe p.2)
    ∧ ((readServers (writeServers true [("a", sampleSafeServer)])).map
          (fun p => (p.1, recognizedFields p.2)) =
        [("a", sampleSafeServer)].map (fun p => (p.1, recognizedFields p.2))
      ∧ writeServers true (readServers (writeServers true [("a", sampleSafeServer)])) =
        writeServers true [("a", sampleSafeServer)]) :=
  ⟨by decide, codex_roundtrip_amended true [("a", sampleSafeServer)] (by decide)⟩

/-- C5: a TOML entry whose command is the launcher (cmd or cmd.exe,
case-insensitive) and whose args begin with a /c or /k mode switch followed
by a command is unwrapped to that command and the remaining args; an entry
whose command is not the launcher passes command and args through
unchanged; in particular the claimed example parses as stated. -/
theorem parse_unwraps_launcher :
    (∀ (s : RawServer) (sw c : String) (rest : List String),
        (pyLower s.command = "cmd" ∨ pyLower s.command = "cmd.exe") →
        s.args = sw :: c :: rest →
        (pyLower sw = "/c" ∨ pyLower sw = "/k") →
        (parseCodexServer s).command = c ∧ (parseCodexServer s).args = rest)
    ∧ (∀ s : RawServer,
        ¬ (pyLower s.command = "cmd" ∨ pyLower s.command = "cmd.exe") →
        (parseCodexServer s).command = s.command ∧ (parseCodexServer s).args = s.args)
    ∧ parseCodexServer ⟨"cmd", ["/c", "npx", "-y", "pkg"], [], none⟩ =
      ⟨"npx", ["-y", "pkg"], [], none, none⟩ := by
  refine ⟨?_, ?_, by decide⟩
  · intro s sw c rest hcmd hargs hsw
    have hne : s.command ≠ "" := by
      intro h0
      rw [h0] at hcmd
      rcases hcmd with h | h <;> exact absurd h (by decide)
    have hcond : s.command ≠ "" ∧
        (pyLower s.command = "cmd" ∨ pyLower s.command = "cmd.exe") := ⟨hne, hcmd⟩
    simp only [parseCodexServer, if_pos hcond, hargs]
    rw [if_pos (by simp [List.length_cons])]
    have hfirst : pyLower ((sw :: c :: rest).headD "") = pyLower sw := rfl
    rw [hfirst, if_pos hsw]
    simp [List.getD]
  · intro s hcmd
    have hneg : ¬ (s.command ≠ "" ∧
        (pyLower s.command = "cmd" ∨ pyLower s.command = "cmd.exe")) := by
      rintro ⟨-, h⟩
      exact hcmd h
    simp [parseCodexServer, if_neg hneg]

/-- C10: a TOML entry whose command is the launcher but with fewer than two
args canonicalizes to the empty-string command with the original args
copied unchanged: the launcher command is silently lost. -/
theorem parse_short_launcher_args (s : RawServer)
    (hcmd : pyLower s.command = "cmd" ∨ pyLower s.command = "cmd.exe")
    (hlen : s.args.length < 2) :
    (parseCodexServer s).command = "" ∧ (parseCodexServer s).args = s.args := by
  have hne : s.command ≠ "" := by
    intro h0
    rw [h0] at hcmd
    rcases hcmd with h | h <;> exact absurd h (by decide)
  have hcond : s.command ≠ "" ∧
      (pyLower s.command = "cmd" ∨ pyLower s.command = "cmd.exe") := ⟨hne, hcmd⟩
  have hlen2 : ¬ 2 ≤ s.args.length := by omega
  simp only [parseCodexServer, if_pos hcond, if_neg hlen2]
  constructor <;> first | rfl | trivial

/-- Witness for C10: an uppercase launcher entry with a single mode-switch
argument loses the launcher and keeps the args. -/
theorem parse_short_launcher_args_witness :
    ((pyLower "CMD.exe" = "cmd" ∨ pyLower "CMD.exe" = "cmd.exe")
      ∧ (["/c"] : List String).length < 2)
    ∧ ((parseCodexServer ⟨"CMD.exe", ["/c"], [], none⟩).command = ""
        ∧ (parseCodexServer ⟨"CMD.exe", ["/c"], [], none⟩).args = ["/c"]) :=
  ⟨⟨by decide, by decide⟩,
   parse_short_launcher_args ⟨"CMD.exe", ["/c"], [], none⟩ (by decide) (by decide)⟩

/-- C9: with no explicit format argument, the format resolves to "toml"
exactly when the path suffix is the string ".toml" and to "json" for every
other suffix; an explicit format argument is used as given. -/
theorem format_inference :
    (resolveFormat none ".toml" = "toml")
    ∧ (∀ s, s ≠ ".toml" → resolveFormat none s = "json")
    ∧ (∀ f s, resolveFormat (some f) s = f) := by
  refine ⟨rfl, ?_, ?_⟩
  · intro s hsne
    simp [resolveFormat, inferFormat, hsne]
  · intro f s
    rfl


theorem bestLoop_const {threshold : Nat} {allKw : List (String × String)}
    (ms : List (String × Nat)) (b : Option String × Nat)
    (h : ∀ m, m ∈ ms → m.2 < threshold) :
    bestLoop threshold allKw ms b = b := by
  induction ms with
  | nil => rfl
  | cons m rest ih =>
    rw [bestLoop, if_neg]
    · exact ih (fun x hx => h x (List.mem_cons_of_mem m hx))
    · rintro ⟨hle, -⟩
      exact absurd hle (by
        have := h m (List.mem_cons_self m rest)
        omega)

theorem find?_keyword_of_mem (l : List (String × String)) (k c : String)
    (hmem : (k, c) ∈ l) (hnodup : (l.map Prod.fst).Nodup)
    (hlow : ∀ p, p ∈ l → pyLower p.1 = p.1) :
    l.find? (fun p => k == pyLower p.1) = some (k, c) := by
  induction l with
  | nil => cases hmem
  | cons hd tl ih =>
    rcases hd with ⟨k0, c0⟩
    have hlow0 : pyLower k0 = k0 := hlow (k0, c0) (List.mem_cons_self _ _)
    rw [List.map_cons] at hnodup
    have hnn := List.nodup_cons.mp hnodup
    by_cases hk : k = k0
    · subst hk
      rw [List.find?_cons_of_pos _ (by simp [hlow0])]
      rcases List.mem_cons.mp hmem with h | h
      · rw [(Prod.mk.injEq _ _ _ _).mp h.symm |>.2]
      · exact absurd (List.mem_map.mpr ⟨(k, c), h, rfl⟩) hnn.1
    · rw [List.find?_cons_of_neg _ (by simp [hlow0, hk])]
      apply ih
      · rcases List.mem_cons.mp hmem with h | h
        · exact absurd (congrArg Prod.fst h) hk
        · exact h
      · exact hnn.2
      · intro p hp
        exact hlow p (List.mem_cons_of_mem _ hp)

theorem defaultKeywords_id_of_lookup :
    ∀ p, p ∈ allKeywords defaultKeywords →
      (defaultKeywords.lookup p.1).isSome → p.1 = p.2 := by
  decide

theorem defaultKeywords_lower :
    ∀ p, p ∈ allKeywords defaultKeywords → pyLower p.1 = p.1 := by
  decide

theorem defaultKeywords_nodup :
    ((allKeywords defaultKeywords).map Prod.fst).Nodup := by
  decide

/-- C8: with the default keyword index, the resolver returns no match and
score 0 on an empty query; a normalized query equal to a registered client
identity, or equal (case-insensitively) to any indexed keyword, returns
that client at score exactly 100; and a query matching no identity or
keyword exactly, all of whose fuzzy keyword scores fall below the
threshold, returns no match and score 0. -/
theorem find_client_contract (scorer : String → String → Nat) (threshold : Nat) :
    (findClient scorer defaultKeywords "" threshold = (none, 0))
    ∧ (∀ q, q ≠ "" → (defaultKeywords.lookup (normalizeQuery q)).isSome →
        findClient scorer defaultKeywords q threshold = (some (normalizeQuery q), 100))
    ∧ (∀ q k c, q ≠ "" → (k, c) ∈ allKeywords defaultKeywords → normalizeQuery q = k →
        findClient scorer defaultKeywords q threshold = (some c, 100))
    ∧ (∀ q, q ≠ "" → (defaultKeywords.lookup (normalizeQuery q)).isSome = false →
        (∀ p, p ∈ allKeywords defaultKeywords → ¬ normalizeQuery q = pyLower p.1) →
        (∀ k, k ∈ (allKeywords defaultKeywords).map Prod.fst →
          scorer (normalizeQuery q) k < threshold) →
        findClient scorer defaultKeywords q threshold = (none, 0)) := by
  refine ⟨rfl, ?_, ?_, ?_⟩
  · intro q hq hsome
    rw [findClient, if_neg hq]
    simp only [hsome, if_true]
  · intro q k c hq hmem hnorm
    rw [findClient, if_neg hq]
    simp only [hnorm]
    by_cases hsome : (defaultKeywords.lookup k).isSome = true
    · have hkc : k = c := defaultKeywords_id_of_lookup (k, c) hmem hsome
      rw [if_pos hsome, hkc]
    · rw [if_neg hsome, find?_keyword_of_mem (allKeywords defaultKeywords) k c hmem
        defaultKeywords_nodup defaultKeywords_lower]
  · intro q hq hnone hnokw hscore
    rw [findClient, if_neg hq]
    simp only [hnone, if_false]
    have hfind : (allKeywords defaultKeywords).find?
        (fun p => normalizeQuery q == pyLower p.1) = none := by
      rw [List.find?_eq_none]
      intro p hp
      simp only [beq_eq_false_iff_ne, ne_eq, beq_iff_eq]
      exact hnokw p hp
    rw [hfind]
    apply bestLoop_const
    intro m hm
    have hm2 : m ∈ ((allKeywords defaultKeywords).map Prod.fst).map
        (fun k => (k, scorer (normalizeQuery q) k)) := by
      have hsub := List.take_sublist 5
        (List.insertionSort (fun a b : String × Nat => b.2 ≤ a.2)
          (((allKeywords defaultKeywords).map Prod.fst).map
            (fun k => (k, scorer (normalizeQuery q) k))))
      have hmem2 := hsub.subset hm
      exact (List.perm_insertionSort _ _).subset hmem2
    rcases List.mem_map.mp hm2 with ⟨k, hk, rfl⟩
    exact hscore k hk

/-- Witness for C8 at the constant-zero scorer and the default threshold:
empty query, the identity "codex", the keyword "OpenAI" (case-insensitive)
and an unmatched query. -/
theorem find_client_contract_witness :
    (findClient (fun _ _ => 0) defaultKeywords "" 60 = (none, 0))
    ∧ (findClient (fun _ _ => 0) defaultKeywords "codex" 60 = (some "codex", 100))
    ∧ (findClient (fun _ _ => 0) defaultKeywords "OpenAI" 60 = (some "codex", 100))
    ∧ (findClient (fun _ _ => 0) defaultKeywords "zzz" 60 = (none, 0)) := by
  refine ⟨(find_client_contract (fun _ _ => 0) 60).1, ?_, ?_, ?_⟩
  · exact (find_client_contract (fun _ _ => 0) 60).2.1 "codex" (by decide) (by decide)
  · exact (find_client_contract (fun _ _ => 0) 60).2.2.1 "OpenAI" "openai" "codex"
      (by decide) (by decide) (by decide)
  · exact (find_client_contract (fun _ _ => 0) 60).2.2.2 "zzz" (by decide) (by decide)
      (by decide) (by decide)


theorem filter_not_dropped_ids (bs : List Snapshot) (keep : Nat)
    (hnodup : (bs.map Prod.fst).Nodup) :
    bs.filter (fun s => decide (¬ s.1 ∈ (bs.drop keep).map Prod.fst)) =
      bs.take keep := by
  have hpair : List.Pairwise (fun a b : Snapshot => a.1 ≠ b.1) bs :=
    List.pairwise_map.mp hnodup
  have hcross := (List.pairwise_append.mp
    (by rw [List.take_append_drop keep bs]; exact hpair)).2.2
  have hstep : bs.filter (fun s => decide (¬ s.1 ∈ (bs.drop keep).map Prod.fst)) =
      (bs.take keep ++ bs.drop keep).filter
        (fun s => decide (¬ s.1 ∈ (bs.drop keep).map Prod.fst)) := by
    rw [List.take_append_drop keep bs]
  rw [hstep, List.filter_append]
  have h1 : (bs.take keep).filter
      (fun s => decide (¬ s.1 ∈ (bs.drop keep).map Prod.fst)) = bs.take keep := by
    apply List.filter_eq_self.mpr
    intro s hs
    simp only [decide_eq_true_iff]
    intro hmem
    rcases List.mem_map.mp hmem with ⟨b, hb, hb1⟩
    exact hcross s hs b hb hb1.symm
  have h2 : (bs.drop keep).filter
      (fun s => decide (¬ s.1 ∈ (bs.drop keep).map Prod.fst)) = [] := by
    apply List.filter_eq_nil_iff.mpr
    intro s hs
    simp only [decide_eq_true_iff, Decidable.not_not]
    exact List.mem_map.mpr ⟨s, hs, rfl⟩
  rw [h1, h2, List.append_nil]


theorem listBackups_sorted (snaps : List Snapshot) :
    List.Pairwise (fun a b : Snapshot => b.1 ≤ a.1) (listBackups snaps) :=
  List.Pairwise.sublist (List.filter_sublist _)
    (List.sorted_insertionSort (fun a b : Snapshot => b.1 ≤ a.1) snaps)

theorem listBackups_nodup_ids (snaps : List Snapshot)
    (hnodup : (snaps.map Prod.fst).Nodup) :
    ((listBackups snaps).map Prod.fst).Nodup := by
  have hperm : List.Perm
      ((List.insertionSort (fun a b : Snapshot => b.1 ≤ a.1) snaps).map Prod.fst)
      (snaps.map Prod.fst) :=
    (List.perm_insertionSort _ snaps).map Prod.fst
  have hsortnodup := (hperm.nodup_iff).mpr hnodup
  exact List.Nodup.sublist ((List.filter_sublist _).map Prod.fst) hsortnodup

theorem listBackups_strict_sorted (snaps : List Snapshot)
    (hnodup : (snaps.map Prod.fst).Nodup) :
    List.Pairwise (fun a b : Snapshot => b.1 < a.1) (listBackups snaps) := by
  have h1 := listBackups_sorted snaps
  have h2 : List.Pairwise (fun a b : Snapshot => a.1 ≠ b.1) (listBackups snaps) :=
    List.pairwise_map.mp (listBackups_nodup_ids snaps hnodup)
  exact (h1.and h2).imp (fun h => lt_of_le_of_ne h.1 (Ne.symm h.2))

theorem nodup_filter_ids {p : Snapshot → Bool} (l : List Snapshot)
    (hnodup : (l.map Prod.fst).Nodup) : ((l.filter p).map Prod.fst).Nodup :=
  List.Nodup.sublist ((List.filter_sublist l).map Prod.fst) hnodup

/-- C7: cleanup(keep = N) removes exactly priorCount − N (truncated at 0)
snapshots, afterwards lists exactly the first N of the previously listed
snapshots — which are the N most recent, the listing being sorted descending
by identifier — hence min(N, priorCount) many, and is a no-op returning 0
and removing nothing when priorCount ≤ N. -/
theorem cleanup_keeps_most_recent (snaps : List Snapshot) (keepCount : Nat)
    (hnodup : (snaps.map Prod.fst).Nodup) :
    (cleanupOldBackups snaps keepCount).1 = (listBackups snaps).length - keepCount
    ∧ listBackups (cleanupOldBackups snaps keepCount).2 =
        (listBackups snaps).take keepCount
    ∧ (listBackups (cleanupOldBackups snaps keepCount).2).length =
        min keepCount (listBackups snaps).length
    ∧ List.Pairwise (fun a b : Snapshot => b.1 ≤ a.1) (listBackups snaps)
    ∧ ((listBackups snaps).length ≤ keepCount →
        cleanupOldBackups snaps keepCount = (0, snaps)) := by
  by_cases hle : (listBackups snaps).length ≤ keepCount
  · have hcl : cleanupOldBackups snaps keepCount = (0, snaps) := by
      rw [cleanupOldBackups]
      simp only [hle, if_true]
    refine ⟨?_, ?_, ?_, listBackups_sorted snaps, fun _ => hcl⟩
    · rw [hcl]
      show (0 : Nat) = (listBackups snaps).length - keepCount
      omega
    · rw [hcl]
      show listBackups snaps = (listBackups snaps).take keepCount
      exact (List.take_of_length_le hle).symm
    · rw [hcl]
      show (listBackups snaps).length = min keepCount (listBackups snaps).length
      omega
  · have hcl : cleanupOldBackups snaps keepCount =
        (((listBackups snaps).drop keepCount).length,
          snaps.filter (fun s => decide (¬ s.1 ∈
            ((listBackups snaps).drop keepCount).map Prod.fst))) := by
      rw [cleanupOldBackups]
      simp only [hle, if_false]
    have hkey : listBackups (snaps.filter (fun s => decide (¬ s.1 ∈
        ((listBackups snaps).drop keepCount).map Prod.fst))) =
        (listBackups snaps).take keepCount := by
      apply List.eq_of_perm_of_sorted
        (r := fun a b : Snapshot => b.1 < a.1)
      · have hperm1 : List.Perm
            (listBackups (snaps.filter (fun s => decide (¬ s.1 ∈
              ((listBackups snaps).drop keepCount).map Prod.fst))))
            ((snaps.filter (fun s => decide (¬ s.1 ∈
              ((listBackups snaps).drop keepCount).map Prod.fst))).filter
                (fun s => decide (s.2 ≠ []))) :=
          (List.perm_insertionSort _ _).filter _
        have htake : (listBackups snaps).take keepCount =
            (listBackups snaps).filter (fun s => decide (¬ s.1 ∈
              ((listBackups snaps).drop keepCount).map Prod.fst)) :=
          (filter_not_dropped_ids (listBackups snaps) keepCount
            (listBackups_nodup_ids snaps hnodup)).symm
        have hperm2 : List.Perm
            ((listBackups snaps).filter (fun s => decide (¬ s.1 ∈
              ((listBackups snaps).drop keepCount).map Prod.fst)))
            ((snaps.filter (fun s => decide (s.2 ≠ []))).filter
              (fun s => decide (¬ s.1 ∈
                ((listBackups snaps).drop keepCount).map Prod.fst))) :=
          ((List.perm_insertionSort (fun a b : Snapshot => b.1 ≤ a.1) snaps).filter _).filter _
        rw [htake]
        refine hperm1.trans (List.Perm.trans (List.Perm.of_eq ?_) hperm2.symm)
        rw [List.filter_filter, List.filter_filter]
        apply List.filter_congr
        intro s hs
        exact Bool.and_comm _ _
      · exact listBackups_strict_sorted _ (nodup_filter_ids snaps hnodup)
      · exact List.Pairwise.sublist (List.take_sublist _ _)
          (listBackups_strict_sorted snaps hnodup)
    refine ⟨?_, ?_, ?_, listBackups_sorted snaps, fun hc => absurd hc hle⟩
    · rw [hcl]
      show ((listBackups snaps).drop keepCount).length =
        (listBackups snaps).length - keepCount
      exact List.length_drop keepCount (listBackups snaps)
    · rw [hcl]
      exact hkey
    · rw [hcl]
      show (listBackups (snaps.filter (fun s => decide (¬ s.1 ∈
        ((listBackups snaps).drop keepCount).map Prod.fst)))).length =
        min keepCount (listBackups snaps).length
      rw [hkey, List.length_take]

/-- Witness for C7: three nonempty snapshots, keep the two most recent. -/
theorem cleanup_keeps_most_recent_witness :
    ((cleanupOldBackups
        [("20240101_000000_000001", ["a.json"]), ("20240301_000000_000003", ["c.json"]),
          ("20240201_000000_000002", ["b.json"])] 2).1 =
      (listBackups
        [("20240101_000000_000001", ["a.json"]), ("20240301_000000_000003", ["c.json"]),
          ("20240201_000000_000002", ["b.json"])]).length - 2)
    ∧ listBackups (cleanupOldBackups
        [("20240101_000000_000001", ["a.json"]), ("20240301_000000_000003", ["c.json"]),
          ("20240201_000000_000002", ["b.json"])] 2).2 =
      (listBackups
        [("20240101_000000_000001", ["a.json"]), ("20240301_000000_000003", ["c.json"]),
          ("20240201_000000_000002", ["b.json"])]).take 2 := by
  have h := cleanup_keeps_most_recent
    [("20240101_000000_000001", ["a.json"]), ("20240301_000000_000003", ["c.json"]),
      ("20240201_000000_000002", ["b.json"])] 2 (by decide)
  exact ⟨h.1, h.2.1⟩

end McpSync
